import Mathlib

/-
Verification of the one-shot LLM task execution engine
(simple_one_shot_framework): text chunking, retry/backoff dispatch,
the tool invocation loop, batch dispatch and result aggregation.
Python strings are modelled as lists of characters; the tokenizer is an
abstract token-count function on paragraphs, as only lengths of
encodings are ever used by the code.
-/

namespace OneShot

/-- Characters of a string literal, used to state concrete examples. -/
def strL (s : String) : List Char := s.data

/-- Auxiliary worker for splitting on a newline character. -/
def pySplitNlAux : List Char → List Char → List (List Char)
  | [], acc => [acc.reverse]
  | c :: cs, acc =>
    if c = '\n' then acc.reverse :: pySplitNlAux cs []
    else pySplitNlAux cs (c :: acc)

/-- Model of the Python expression text.split with a newline separator:
splitting on every newline, with an empty string yielding one empty
paragraph. -/
def pySplitNl (s : List Char) : List (List Char) := pySplitNlAux s []

/-- Whitespace characters removed by the Python strip method. -/
def pyIsSpace (c : Char) : Bool :=
  c = ' ' || c = '\t' || c = '\n' || c = '\r' || c = Char.ofNat 11 || c = Char.ofNat 12

/-- Model of the Python strip method: remove leading and trailing
whitespace. -/
def pyStrip (s : List Char) : List Char :=
  ((s.dropWhile pyIsSpace).reverse.dropWhile pyIsSpace).reverse

/-- Model of joining a list of paragraphs with a newline separator. -/
def pyJoinNl : List (List Char) → List Char
  | [] => []
  | [p] => p
  | p :: ps => p ++ '\n' :: pyJoinNl ps

/-- Total token count of a buffer of paragraphs: the sum of the token
counts of its paragraphs, exactly the accounting used by
chunk_paragraphs. -/
def sumTok (tok : List Char → Nat) (ps : List (List Char)) : Nat :=
  (ps.map tok).sum

/-- Model of the Python slice xs[-k:]: for k = 0 the whole list (the
index -0 is 0), otherwise the last k elements. -/
def pySliceLast (k : Nat) (xs : List (List Char)) : List (List Char) :=
  if k = 0 then xs else xs.drop (xs.length - k)

/-- The overlap retention of chunk_paragraphs, lines 48-50: the buffer
is replaced by its slice temp_paragraphs[-overlap:] exactly when
overlap < len(temp_paragraphs). -/
def pyRetain (ov : Nat) (temp : List (List Char)) : List (List Char) :=
  if ov < temp.length then pySliceLast ov temp else temp

/-- One iteration of the for loop of chunk_paragraphs, lines 39-55,
operating on the pair of the result list and the running buffer; the
emitted chunk is the stripped newline-join of the buffer. -/
def chunkStep (tok : List Char → Nat) (cs ov : Nat)
    (st : List (List Char) × List (List Char)) (p : List Char) :
    List (List Char) × List (List Char) :=
  if cs < tok p + sumTok tok st.2 then
    (st.1 ++ [pyStrip (pyJoinNl st.2)], pyRetain ov st.2 ++ [p])
  else (st.1, st.2 ++ [p])

/-- TextChunkingOneShot.chunk_paragraphs, lines 21-61: split the text on
newlines, fold the paragraphs through the buffer loop, then emit the
final buffer when it is nonempty. -/
def chunk_paragraphs (tok : List Char → Nat) (cs ov : Nat) (text : List Char) :
    List (List Char) :=
  let st := (pySplitNl text).foldl (chunkStep tok cs ov) ([], [])
  if st.2.isEmpty then st.1 else st.1 ++ [pyStrip (pyJoinNl st.2)]

/-- The same iteration keeping emitted chunks as paragraph buffers
instead of joined strings, for reasoning about paragraph structure. -/
def bufStep (tok : List Char → Nat) (cs ov : Nat)
    (st : List (List (List Char)) × List (List Char)) (p : List Char) :
    List (List (List Char)) × List (List Char) :=
  if cs < tok p + sumTok tok st.2 then
    (st.1 ++ [st.2], pyRetain ov st.2 ++ [p])
  else (st.1, st.2 ++ [p])

/-- chunk_paragraphs with chunks kept as paragraph buffers. -/
def chunkBuffers (tok : List Char → Nat) (cs ov : Nat) (text : List Char) :
    List (List (List Char)) :=
  let st := (pySplitNl text).foldl (bufStep tok cs ov) ([], [])
  if st.2.isEmpty then st.1 else st.1 ++ [st.2]

/-- Recursive presentation of the buffer loop, used for induction. -/
def chunksRec (tok : List Char → Nat) (cs ov : Nat)
    (temp : List (List Char)) : List (List Char) → List (List (List Char))
  | [] => [temp]
  | p :: ps =>
    if cs < tok p + sumTok tok temp then
      temp :: chunksRec tok cs ov (pyRetain ov temp ++ [p]) ps
    else chunksRec tok cs ov (temp ++ [p]) ps

/-- Relation between consecutive chunk buffers: either the next buffer
is within the token limit, or it is exactly the overlap-retained seed of
the previous buffer followed by the single paragraph that triggered the
split. -/
def Linked (tok : List Char → Nat) (cs ov : Nat)
    (prev next : List (List Char)) : Prop :=
  sumTok tok next ≤ cs ∨
    ∃ p, next = pyRetain ov prev ++ [p] ∧ cs < tok p + sumTok tok prev

/-- Each successive buffer is the overlap retention of the previous one
followed by its fresh paragraphs, one step at a time. -/
def DecompFrom (ov : Nat) :
    List (List Char) → List (List (List Char)) → List (List (List Char)) → Prop
  | _, [], [] => True
  | prev, b :: bs, fresh :: rest =>
    b = pyRetain ov prev ++ fresh ∧ DecompFrom ov b bs rest
  | _, _, _ => False

/-- The Python strip method on a string value. -/
def pyStripS (s : String) : String := String.mk (pyStrip s.data)

/-- ChatResponse, chat_response.py lines 22-34: a text together with a
completion token count. -/
structure ChatResponse where
  text : String
  token_count : Nat
deriving DecidableEq, Repr

/-- Conversation messages as appended by _chat_one_shot: plain role and
content dictionaries, the assistant message carrying a function_call,
and the function-role message carrying a stringified result. -/
inductive Msg where
  | plain (role : String) (content : String)
  | assistantToolCall (fnName : String) (fnArgs : String)
  | functionResult (name : String) (content : String)
deriving DecidableEq, Repr

/-- One response of the remote endpoint to a single acreate call, as
classified by _chat_one_shot, lines 198-216: a successful response with
an optional function_call (name and JSON arguments string), the content
and the completion token usage; or one of the three exception classes
caught by the retry loop. -/
inductive ApiResult where
  | success (functionCall : Option (String × String)) (content : String)
      (completionTokens : Nat)
  | invalidRequest (msg : String)
  | apiError (msg : String)
  | otherError (msg : String)
deriving DecidableEq, Repr

/-- How one run of the retry loop ends: a ChatResponse, an immediately
propagated invalid-request or unexpected error, or pending when the
supplied endpoint trace ran out while the loop was still going. -/
inductive LoopOutcome where
  | ok (r : ChatResponse)
  | invalidRequest (msg : String)
  | otherError (msg : String)
  | pending
deriving DecidableEq, Repr

/-- Observable trace of one run of the loop of _chat_one_shot: the
backoff sleeps in order, the capability invocations in order (name,
decoded arguments, result), the final message list and the outcome. -/
structure LoopTrace (A : Type) where
  sleeps : List Nat
  calls : List (String × A × String)
  messages : List Msg
  outcome : LoopOutcome
deriving DecidableEq

/-- ToolUseOneShot._chat_one_shot, lines 194-216, driven by a list of
endpoint responses. The argument callFn models __call_function applied
to an already decoded argument map, jsonDecode models json.loads on the
arguments string, and maxDelay models self.max_delay. On a tool-call
response the capability is invoked and the two messages are appended; on
a content response the loop returns the stripped content with the
completion tokens of that response; an invalid request or unexpected
error propagates at once; a transient OpenAIError sleeps
min(2 * delay, maxDelay) as in __exponential_backoff (line 84), doubles
delay (line 213) and retries the identical request. -/
def chatLoop {A : Type} (callFn : String → A → String) (jsonDecode : String → A)
    (maxDelay : Nat) :
    List ApiResult → List Msg → Nat → LoopTrace A
  | [], msgs, _ => ⟨[], [], msgs, LoopOutcome.pending⟩
  | ApiResult.success (some (fname, fargs)) _ _ :: rest, msgs, delay =>
    let fres := callFn fname (jsonDecode fargs)
    let t := chatLoop callFn jsonDecode maxDelay rest
      (msgs ++ [Msg.assistantToolCall fname fargs, Msg.functionResult fname fres]) delay
    ⟨t.sleeps, (fname, jsonDecode fargs, fres) :: t.calls, t.messages, t.outcome⟩
  | ApiResult.success none content tokens :: _, msgs, _ =>
    ⟨[], [], msgs, LoopOutcome.ok ⟨pyStripS content, tokens⟩⟩
  | ApiResult.invalidRequest m :: _, msgs, _ =>
    ⟨[], [], msgs, LoopOutcome.invalidRequest m⟩
  | ApiResult.apiError _ :: rest, msgs, delay =>
    let t := chatLoop callFn jsonDecode maxDelay rest msgs (delay * 2)
    ⟨min (2 * delay) maxDelay :: t.sleeps, t.calls, t.messages, t.outcome⟩
  | ApiResult.otherError m :: _, msgs, _ =>
    ⟨[], [], msgs, LoopOutcome.otherError m⟩

/-- One element of a list input to arun: a raw string or a prior
ChatResponse. -/
inductive RunInput where
  | text (s : String)
  | prior (c : ChatResponse)
deriving DecidableEq, Repr

/-- The user message extracted from a list element by arun, lines
103-105: a ChatResponse contributes its text. -/
def itemText : RunInput → String
  | RunInput.text s => s
  | RunInput.prior c => c.text

/-- The tasks built by arun, lines 101-107: one _chat_one_shot call per
element, in input order; loop abstracts _chat_one_shot on a user
message, returning a ChatResponse or the recorded exception. -/
def arunTasks {E : Type} (loop : String → Except E ChatResponse)
    (input : List RunInput) : List (Except E ChatResponse) :=
  input.map (fun it => loop (itemText it))

/-- Completion events of a concurrent execution of the tasks: the
scheduling order lists task indices in the order they finish, and each
finishing task yields its own result paired with its index. -/
def completionResults {α : Type} (tasks : List α) (order : List Nat) :
    List (Nat × α) :=
  order.filterMap (fun j => tasks[j]?.map (fun r => (j, r)))

/-- Model of asyncio.gather with return_exceptions=True, line 109: the
i-th slot of the returned list receives the result of task i, looked up
from the completion events, whatever the completion order. -/
def gatherModel {α : Type} (tasks : List α) (order : List Nat) : List (Option α) :=
  (List.range tasks.length).map (fun i => (completionResults tasks order).lookup i)

/-- ToolUseOneShot.arun on a list input, lines 101-109, under a given
completion order of the concurrently launched loops. -/
def arun {E : Type} (loop : String → Except E ChatResponse)
    (input : List RunInput) (order : List Nat) :
    List (Option (Except E ChatResponse)) :=
  gatherModel (arunTasks loop input) order

/-- The accumulation loop of await_and_combine_multiple_results, lines
122-131: failures are skipped, successes append their text and add
their token count. -/
def combineLoop {E : Type} :
    List (Except E ChatResponse) → List String → Nat → List String × Nat
  | [], texts, tc => (texts, tc)
  | Except.error _ :: rest, texts, tc => combineLoop rest texts tc
  | Except.ok c :: rest, texts, tc =>
    combineLoop rest (texts ++ [c.text]) (tc + c.token_count)

/-- ToolUseOneShot.await_and_combine_multiple_results, lines 117-133,
applied to the already settled per-task results in input order. -/
def await_and_combine_multiple_results {E : Type}
    (results : List (Except E ChatResponse)) : ChatResponse :=
  let st := combineLoop results [] 0
  ⟨String.intercalate "\n" st.1, st.2⟩

/-- Decoded JSON argument map passed as keyword arguments. -/
def ToolArgs : Type := List (String × String)

/-- The schema attached to a capability by the json_schema decorator:
only the name and a description payload matter here. -/
structure ToolSchema where
  name : String
  description : String
deriving DecidableEq, Repr

/-- A method of a tool-chest owner: its callable, which may fail with an
exception of type E, and its optional attached schema. -/
structure ToolMethod (E : Type) where
  fn : ToolArgs → Except E String
  schema : Option ToolSchema

/-- An owner object of the tool chest, with its named methods. -/
structure ToolOwner (E : Type) where
  methods : List (String × ToolMethod E)

/-- ToolUseOneShot.__functions, lines 135-152: for every owner of the
tool chest and every schema-bearing method, a copy of the schema whose
name is the owner name joined to the schema name by a dash. -/
def functions {E : Type} (chest : List (String × ToolOwner E)) : List ToolSchema :=
  chest.flatMap (fun src =>
    src.2.methods.flatMap (fun m =>
      match m.2.schema with
      | some sch => [{ name := src.1 ++ "-" ++ sch.name,
                       description := sch.description }]
      | none => []))

/-- Failures of __call_function, lines 154-159: the tuple unpacking
error when the split does not yield exactly two parts, the missing owner
key, the missing method attribute, and an exception raised by the
callable itself, carried unmodified. -/
inductive CallFailure (E : Type) where
  | valueError
  | keyError (k : String)
  | attributeError (n : String)
  | raised (e : E)
deriving DecidableEq

/-- Worker for the Python split method with a separator character and a
maximum number of splits. -/
def pySplitChAux (sep : Char) : Nat → List Char → List Char → List (List Char)
  | _, [], acc => [acc.reverse]
  | 0, rest, acc => [acc.reverse ++ rest]
  | m + 1, c :: rest, acc =>
    if c = sep then acc.reverse :: pySplitChAux sep m rest []
    else pySplitChAux sep (m + 1) rest (c :: acc)

/-- Model of the Python expression s.split(sep, maxsplit). -/
def pySplitMax (sep : Char) (m : Nat) (s : List Char) : List (List Char) :=
  pySplitChAux sep m s []

/-- ToolUseOneShot.__call_function, lines 154-159: split the qualified
name on a dash with maxsplit 2, unpack into owner and method name, look
up the owner in the tool chest, fetch the method and call it with the
argument map, propagating its own failure unmodified. -/
def call_function {E : Type} (chest : List (String × ToolOwner E))
    (function_id : String) (args : ToolArgs) : Except (CallFailure E) String :=
  match pySplitMax '-' 2 function_id.data with
  | [tb, fn] =>
    match chest.lookup (String.mk tb) with
    | none => Except.error (CallFailure.keyError (String.mk tb))
    | some o =>
      match o.methods.lookup (String.mk fn) with
      | none => Except.error (CallFailure.attributeError (String.mk fn))
      | some m => (m.fn args).mapError CallFailure.raised
  | _ => Except.error CallFailure.valueError

/-- A concrete schema-bearing method for the C6 witness. -/
def egMethod : ToolMethod String :=
  ⟨fun _ => Except.ok "hi", some ⟨"foo", "a capability"⟩⟩

/-- A concrete owner for the C6 witness. -/
def egOwner : ToolOwner String := ⟨[("foo", egMethod)]⟩

/-- A concrete tool chest for the C6 witness. -/
def egChest : List (String × ToolOwner String) := [("self", egOwner)]

/-- Python dictionary assignment d[k] = v on an association list:
replace the value at an existing key, otherwise append the binding. -/
def dictSet {α : Type} (k : String) (v : α) :
    List (String × α) → List (String × α)
  | [] => [(k, v)]
  | (k2, v2) :: rest =>
    if k2 = k then (k, v) :: rest else (k2, v2) :: dictSet k v rest

/-- ToolUseOneShot.__init__, lines 70-72: the tool chest is the
caller-supplied tools mapping with the key self then bound to the engine
instance itself. -/
def initToolChest {E : Type} (tools : List (String × ToolOwner E))
    (engine : ToolOwner E) : List (String × ToolOwner E) :=
  dictSet "self" engine tools

/-- A concrete engine owner for the C10 witness, with one schema-bearing
method. -/
def egEngine : ToolOwner String :=
  ⟨[("chat", ⟨fun _ => Except.ok "ok", some ⟨"chat", "run a chat"⟩⟩)]⟩

/-- A concrete caller-supplied tools mapping for the C10 witness, with a
caller entry under the key self that must be overwritten. -/
def egCallerTools : List (String × ToolOwner String) :=
  [("self", ⟨[]⟩), ("db", ⟨[("query", ⟨fun _ => Except.ok "rows", none⟩)]⟩)]

/-- The splitting worker never returns an empty list of paragraphs. -/
lemma pySplitNlAux_ne_nil : ∀ (s acc : List Char), pySplitNlAux s acc ≠ [] := by
  intro s
  induction s with
  | nil => intro acc; simp [pySplitNlAux]
  | cons c cl ih =>
    intro acc
    by_cases h : c = '\n'
    · simp [pySplitNlAux, h]
    · simpa [pySplitNlAux, h] using ih (c :: acc)

/-- Splitting a text on newlines always yields at least one paragraph. -/
lemma pySplitNl_ne_nil (s : List Char) : pySplitNl s ≠ [] :=
  pySplitNlAux_ne_nil s []

/-- Token counts add across buffer concatenation. -/
lemma sumTok_append (tok : List Char → Nat) (a b : List (List Char)) :
    sumTok tok (a ++ b) = sumTok tok a + sumTok tok b := by
  simp [sumTok]

/-- The buffer fold agrees with the recursive presentation as soon as at
least one paragraph is processed. -/
lemma foldl_bufStep_rec (tok : List Char → Nat) (cs ov : Nat) :
    ∀ (ps : List (List Char)), ps ≠ [] → ∀ (r : List (List (List Char))) (temp : List (List Char)),
      (if (ps.foldl (bufStep tok cs ov) (r, temp)).2.isEmpty
       then (ps.foldl (bufStep tok cs ov) (r, temp)).1
       else (ps.foldl (bufStep tok cs ov) (r, temp)).1
            ++ [(ps.foldl (bufStep tok cs ov) (r, temp)).2])
      = r ++ chunksRec tok cs ov temp ps := by
  intro ps
  induction ps with
  | nil => intro h; exact absurd rfl h
  | cons p ps ih =>
    intro _ r temp
    rcases eq_or_ne ps [] with hps | hps
    · subst hps
      by_cases h : cs < tok p + sumTok tok temp
      · simp [bufStep, chunksRec, h]
      · simp [bufStep, chunksRec, h]
    · by_cases h : cs < tok p + sumTok tok temp
      · have hh := ih hps (r ++ [temp]) (pyRetain ov temp ++ [p])
        simp only [List.foldl_cons]
        rw [show bufStep tok cs ov (r, temp) p = (r ++ [temp], pyRetain ov temp ++ [p]) from
          by simp [bufStep, h]]
        rw [hh]
        simp [chunksRec, h]
      · have hh := ih hps r (temp ++ [p])
        simp only [List.foldl_cons]
        rw [show bufStep tok cs ov (r, temp) p = (r, temp ++ [p]) from by simp [bufStep, h]]
        rw [hh]
        simp [chunksRec, h]

/-- chunkBuffers coincides with the recursive presentation started on an
empty buffer. -/
lemma chunkBuffers_eq_rec (tok : List Char → Nat) (cs ov : Nat) (text : List Char) :
    chunkBuffers tok cs ov text = chunksRec tok cs ov [] (pySplitNl text) := by
  have h := foldl_bufStep_rec tok cs ov (pySplitNl text) (pySplitNl_ne_nil text) [] []
  simpa [chunkBuffers] using h

/-- The string-chunk fold is the buffer fold with each emitted buffer
joined by newlines and stripped. -/
lemma foldl_chunkStep_pair (tok : List Char → Nat) (cs ov : Nat) :
    ∀ (ps : List (List Char)) (r : List (List (List Char))) (t : List (List Char)),
      ps.foldl (chunkStep tok cs ov) (r.map (fun b => pyStrip (pyJoinNl b)), t)
        = ((ps.foldl (bufStep tok cs ov) (r, t)).1.map (fun b => pyStrip (pyJoinNl b)),
           (ps.foldl (bufStep tok cs ov) (r, t)).2) := by
  intro ps
  induction ps with
  | nil => intro r t; rfl
  | cons p ps ih =>
    intro r t
    by_cases h : cs < tok p + sumTok tok t
    · have hh := ih (r ++ [t]) (pyRetain ov t ++ [p])
      simp only [List.foldl_cons, chunkStep, bufStep, h, if_pos]
      simpa using hh
    · have hh := ih r (t ++ [p])
      simp only [List.foldl_cons, chunkStep, bufStep, h, if_neg, not_false_iff]
      exact hh

/-- The chunk strings are exactly the stripped newline-joins of the
chunk buffers. -/
lemma chunk_paragraphs_eq_map (tok : List Char → Nat) (cs ov : Nat) (text : List Char) :
    chunk_paragraphs tok cs ov text
      = (chunkBuffers tok cs ov text).map (fun b => pyStrip (pyJoinNl b)) := by
  have h := foldl_chunkStep_pair tok cs ov (pySplitNl text) [] []
  simp only [List.map_nil] at h
  by_cases he : ((pySplitNl text).foldl (bufStep tok cs ov) ([], [])).2.isEmpty
  · simp [chunk_paragraphs, chunkBuffers, h, he]
  · simp [chunk_paragraphs, chunkBuffers, h, he]

/-- The recursive chunking never yields an empty chunk list. -/
lemma chunksRec_ne_nil (tok : List Char → Nat) (cs ov : Nat) :
    ∀ (ps : List (List Char)) (temp : List (List Char)),
      chunksRec tok cs ov temp ps ≠ [] := by
  intro ps
  induction ps with
  | nil => intro temp; simp [chunksRec]
  | cons p ps ih =>
    intro temp
    by_cases h : cs < tok p + sumTok tok temp
    · simp [chunksRec, h]
    · simpa [chunksRec, h] using ih (temp ++ [p])

/-- The first chunk produced from a buffer is either that buffer itself
or a buffer whose token sum is within the limit. -/
lemma chunksRec_head (tok : List Char → Nat) (cs ov : Nat) :
    ∀ (ps : List (List Char)) (temp h0 : List (List Char)),
      (chunksRec tok cs ov temp ps).head? = some h0 →
      h0 = temp ∨ sumTok tok h0 ≤ cs := by
  intro ps
  induction ps with
  | nil =>
    intro temp h0 h
    simp [chunksRec] at h
    exact Or.inl h.symm
  | cons p ps ih =>
    intro temp h0 h
    by_cases hc : cs < tok p + sumTok tok temp
    · simp [chunksRec, hc] at h
      exact Or.inl h.symm
    · simp only [chunksRec, hc, if_neg, not_false_iff] at h
      rcases ih (temp ++ [p]) h0 h with h1 | h1
      · subst h1
        right
        rw [sumTok_append]
        have hp : sumTok tok [p] = tok p := by simp [sumTok]
        rw [hp]
        omega
      · exact Or.inr h1

/-- Consecutive chunk buffers always stand in the Linked relation. -/
lemma chunksRec_chain (tok : List Char → Nat) (cs ov : Nat) :
    ∀ (ps : List (List Char)) (temp : List (List Char)),
      List.Chain' (Linked tok cs ov) (chunksRec tok cs ov temp ps) := by
  intro ps
  induction ps with
  | nil => intro temp; simp [chunksRec]
  | cons p ps ih =>
    intro temp
    by_cases hc : cs < tok p + sumTok tok temp
    · simp only [chunksRec, hc, if_pos]
      refine List.chain'_cons'.mpr ⟨?_, ih (pyRetain ov temp ++ [p])⟩
      intro y hy
      rcases chunksRec_head tok cs ov ps (pyRetain ov temp ++ [p]) y hy with h1 | h1
      · exact Or.inr ⟨p, h1, hc⟩
      · exact Or.inl h1
    · simpa [chunksRec, hc] using ih (temp ++ [p])

/-- Extracting the pairwise relation of a chain at explicit indices. -/
lemma chain'_getElem? {α : Type} {R : α → α → Prop} :
    ∀ (l : List α), List.Chain' R l →
      ∀ (i : Nat) (a b : α), l[i]? = some a → l[i + 1]? = some b → R a b := by
  intro l
  induction l with
  | nil => intro _ i a b h; simp at h
  | cons x l ih =>
    intro hch i a b ha hb
    rcases List.chain'_cons'.mp hch with ⟨hhd, htl⟩
    cases i with
    | zero =>
      simp at ha
      subst ha
      have : l[0]? = some b := by simpa using hb
      have hb' : l.head? = some b := by
        rw [← List.head?_eq_getElem?] at this
        exact this
      exact hhd b hb'
    | succ j =>
      have ha' : l[j]? = some a := by simpa using ha
      have hb' : l[j + 1]? = some b := by simpa using hb
      exact ih htl j a b ha' hb'

/-- Structure of the recursive chunking: the first buffer extends the
starting buffer, every later buffer is the retention of its predecessor
plus fresh paragraphs, and the fresh paragraphs concatenated recover the
processed paragraph sequence. -/
lemma chunksRec_decomp (tok : List Char → Nat) (cs ov : Nat) :
    ∀ (ps : List (List Char)) (temp : List (List Char)),
      ∃ x0 Bs rest,
        chunksRec tok cs ov temp ps = (temp ++ x0) :: Bs ∧
        DecompFrom ov (temp ++ x0) Bs rest ∧
        (x0 :: rest).flatten = ps := by
  intro ps
  induction ps with
  | nil =>
    intro temp
    exact ⟨[], [], [], by simp [chunksRec], by simp [DecompFrom], by simp⟩
  | cons p ps ih =>
    intro temp
    by_cases hc : cs < tok p + sumTok tok temp
    · rcases ih (pyRetain ov temp ++ [p]) with ⟨x0, Bs, rest, h1, h2, h3⟩
      refine ⟨[], ((pyRetain ov temp ++ [p]) ++ x0) :: Bs, ([p] ++ x0) :: rest, ?_, ?_, ?_⟩
      · simp [chunksRec, hc, h1]
      · exact ⟨by simp, h2⟩
      · simp at h3 ⊢
        simp [h3]
    · rcases ih (temp ++ [p]) with ⟨x0, Bs, rest, h1, h2, h3⟩
      refine ⟨p :: x0, Bs, rest, ?_, ?_, ?_⟩
      · rw [show temp ++ p :: x0 = (temp ++ [p]) ++ x0 from by simp]
        simpa [chunksRec, hc] using h1
      · rw [show temp ++ p :: x0 = (temp ++ [p]) ++ x0 from by simp]
        exact h2
      · simp at h3 ⊢
        simp [h3]

/-- C2: the claim says that with overlap 0 no paragraph of an emitted
chunk is carried into the next chunk. The code evaluates the slice
temp_paragraphs[-0:] which is the whole buffer, so with token counter =
character count, chunk_size 3 and overlap 0, the text of three
two-character paragraphs yields chunks that each repeat the entire
previous buffer, instead of the disjoint chunks the claim requires. -/
theorem C2_bug_eval :
    chunk_paragraphs List.length 3 0 (strL "aa\nbb\ncc")
        = [strL "aa", strL "aa\nbb", strL "aa\nbb\ncc"] ∧
      pyRetain 0 [strL "aa"] = [strL "aa"] ∧
      pyRetain 0 [strL "aa", strL "bb"] = [strL "aa", strL "bb"] := by
  decide

/-- C3 counterexample: with token counter = character count, chunk_size
5 and overlap 1, the input of three three-character paragraphs produces
the middle chunk of two paragraphs whose token count is 6 (paragraph
sum) and 7 (chunk string), both above the limit 5, refuting the claim
that every multi-paragraph chunk fits within chunk_size. -/
theorem C3_counterexample :
    chunk_paragraphs List.length 5 1 (strL "aaa\nbbb\nccc")
        = [strL "aaa", strL "aaa\nbbb", strL "bbb\nccc"] ∧
      chunkBuffers List.length 5 1 (strL "aaa\nbbb\nccc")
        = [[strL "aaa"], [strL "aaa", strL "bbb"], [strL "bbb", strL "ccc"]] ∧
      5 < (strL "aaa\nbbb").length ∧
      5 < sumTok List.length [strL "aaa", strL "bbb"] := by
  decide

/-- C3 amended: the first chunk buffer always fits within chunk_size;
any later chunk buffer whose token sum exceeds chunk_size is exactly the
overlap retention of the previous chunk buffer followed by the single
paragraph whose arrival triggered that split (so paragraphs are still
never split mid-paragraph, but an over-limit paragraph can be emitted
together with retained seed paragraphs); each chunk string is the
stripped newline-join of its buffer. -/
theorem C3_amended (tok : List Char → Nat) (cs ov : Nat) (text : List Char) :
    (∀ h0, (chunkBuffers tok cs ov text).head? = some h0 → sumTok tok h0 ≤ cs) ∧
    (∀ (i : Nat) (prev next : List (List Char)),
      (chunkBuffers tok cs ov text)[i]? = some prev →
      (chunkBuffers tok cs ov text)[i + 1]? = some next →
      cs < sumTok tok next →
      ∃ p, next = pyRetain ov prev ++ [p] ∧ cs < tok p + sumTok tok prev) ∧
    chunk_paragraphs tok cs ov text
      = (chunkBuffers tok cs ov text).map (fun b => pyStrip (pyJoinNl b)) := by
  refine ⟨?_, ?_, chunk_paragraphs_eq_map tok cs ov text⟩
  · intro h0 hh
    rw [chunkBuffers_eq_rec] at hh
    rcases chunksRec_head tok cs ov (pySplitNl text) [] h0 hh with h1 | h1
    · subst h1
      simp [sumTok]
    · exact h1
  · intro i prev next hp hn hgt
    rw [chunkBuffers_eq_rec] at hp hn
    have hch := chunksRec_chain tok cs ov (pySplitNl text) []
    have hl := chain'_getElem? _ hch i prev next hp hn
    rcases hl with h1 | h1
    · omega
    · exact h1

/-- C3 amended, witnessed at the counterexample input: the over-limit
middle chunk buffer is the retained seed of the first chunk plus the
single triggering paragraph. -/
theorem C3_amended_witness :
    ∃ p, [strL "aaa", strL "bbb"] = pyRetain 1 [strL "aaa"] ++ [p] ∧
      5 < List.length p + sumTok List.length [strL "aaa"] :=
  (C3_amended List.length 5 1 (strL "aaa\nbbb\nccc")).2.1 0
    [strL "aaa"] [strL "aaa", strL "bbb"] (by decide) (by decide) (by decide)

/-- C4 counterexample: the chunk strings are stripped, so a paragraph
with leading whitespace is altered and concatenating the returned chunks
cannot reconstruct the original paragraph sequence: the single-paragraph
input consisting of a space and the letter a comes back without the
space. -/
theorem C4_counterexample :
    chunk_paragraphs List.length 10 0 (strL " a") = [strL "a"] ∧
      pySplitNl (strL " a") = [strL " a"] ∧
      pySplitNl (strL "a") = [strL "a"] ∧
      strL "a" ≠ strL " a" := by
  decide

/-- C4 amended: the round trip holds at the level of the untrimmed
paragraph buffers: the chunk buffer list is never empty, the first
buffer followed by the fresh (non-seed) paragraphs of each later buffer
concatenates to exactly the newline-split of the input, and the returned
chunk strings are the stripped newline-joins of those buffers (so
reconstruction of the chunk strings holds only up to the whitespace
stripping applied to each chunk). -/
theorem C4_amended (tok : List Char → Nat) (cs ov : Nat) (text : List Char) :
    chunk_paragraphs tok cs ov text ≠ [] ∧
    ∃ b0 Bs rest,
      chunkBuffers tok cs ov text = b0 :: Bs ∧
      DecompFrom ov b0 Bs rest ∧
      (b0 :: rest).flatten = pySplitNl text ∧
      chunk_paragraphs tok cs ov text
        = (b0 :: Bs).map (fun b => pyStrip (pyJoinNl b)) := by
  rcases chunksRec_decomp tok cs ov (pySplitNl text) [] with ⟨x0, Bs, rest, h1, h2, h3⟩
  simp only [List.nil_append] at h1 h2
  have hB : chunkBuffers tok cs ov text = x0 :: Bs := by
    rw [chunkBuffers_eq_rec, h1]
  refine ⟨?_, x0, Bs, rest, hB, h2, h3, ?_⟩
  · rw [chunk_paragraphs_eq_map tok cs ov text, hB]
    simp
  · rw [chunk_paragraphs_eq_map tok cs ov text, hB]

/-- Sleeps of a run that meets k consecutive transient errors, starting
from a delay that is a power of two. -/
lemma chatLoop_replicate_sleeps {A : Type} (callFn : String → A → String)
    (jsonDecode : String → A) (maxDelay : Nat) (m : String) (rest : List ApiResult) :
    ∀ (k j : Nat) (msgs : List Msg),
      (chatLoop callFn jsonDecode maxDelay
          (List.replicate k (ApiResult.apiError m) ++ rest) msgs (2 ^ j)).sleeps
        = (List.range k).map (fun i => min (2 ^ (j + i + 1)) maxDelay)
          ++ (chatLoop callFn jsonDecode maxDelay rest msgs (2 ^ (j + k))).sleeps := by
  intro k
  induction k with
  | zero => intro j msgs; simp
  | succ k ih =>
    intro j msgs
    have hd : (2 : Nat) ^ j * 2 = 2 ^ (j + 1) := (pow_succ 2 j).symm
    have h2 : (2 : Nat) * 2 ^ j = 2 ^ (j + 1) := by
      rw [mul_comm]; exact (pow_succ 2 j).symm
    have step : (chatLoop callFn jsonDecode maxDelay
          (ApiResult.apiError m :: (List.replicate k (ApiResult.apiError m) ++ rest))
          msgs (2 ^ j)).sleeps
        = min (2 * 2 ^ j) maxDelay :: (chatLoop callFn jsonDecode maxDelay
            (List.replicate k (ApiResult.apiError m) ++ rest) msgs (2 ^ j * 2)).sleeps := rfl
    rw [List.replicate_succ, List.cons_append, step, hd, ih (j + 1) msgs, h2]
    rw [List.range_succ_eq_map, List.map_cons, List.map_map]
    have hE : (fun i => min (2 ^ (j + 1 + i + 1)) maxDelay)
        = ((fun i => min (2 ^ (j + i + 1)) maxDelay) ∘ Nat.succ) := by
      funext i
      have h3 : j + 1 + i + 1 = j + (i + 1) + 1 := by omega
      simp [Function.comp, h3, Nat.succ_eq_add_one]
    have hK : j + 1 + k = j + (k + 1) := by omega
    rw [hE, hK]
    simp [Nat.add_zero]

/-- Outcome of a run with k transient errors followed by a plain content
response: the loop always reaches the content response. -/
lemma chatLoop_transient_ok {A : Type} (callFn : String → A → String)
    (jsonDecode : String → A) (maxDelay : Nat) (m content : String) (tokens : Nat) :
    ∀ (k : Nat) (msgs : List Msg) (delay : Nat),
      (chatLoop callFn jsonDecode maxDelay
          (List.replicate k (ApiResult.apiError m)
            ++ [ApiResult.success none content tokens]) msgs delay).outcome
        = LoopOutcome.ok ⟨pyStripS content, tokens⟩ := by
  intro k
  induction k with
  | zero => intro msgs delay; rfl
  | succ k ih =>
    intro msgs delay
    rw [List.replicate_succ]
    simp only [List.cons_append, chatLoop]
    exact ih msgs (delay * 2)

/-- C1 counterexample: with max_delay 10 a single transient failure is
followed by a sleep of min(2 * 1, 10) = 2 seconds, not the
min(2^(1-1), 10) = 1 second the claim requires for the first sleep. -/
theorem C1_counterexample :
    (chatLoop (fun _ _ => "") (fun _ => ()) 10
        [ApiResult.apiError "rate limit", ApiResult.success none "done" 3]
        [] 1).sleeps = [2] ∧
      (2 : Nat) ≠ min (2 ^ (1 - 1)) 10 := by
  decide

/-- C1 amended: after k consecutive transient failures the sleeps are
min(2^1, max_delay), min(2^2, max_delay), ..., min(2^k, max_delay): the
internal delay starts at 1 and doubles after every failure, but each
sleep lasts min(2 * delay, max_delay), so the k-th sleep lasts
min(2^k, max_delay), not min(2^(k-1), max_delay). -/
theorem C1_amended {A : Type} (callFn : String → A → String) (jsonDecode : String → A)
    (maxDelay k : Nat) (m content : String) (tokens : Nat) (msgs : List Msg) :
    (chatLoop callFn jsonDecode maxDelay
        (List.replicate k (ApiResult.apiError m)
          ++ [ApiResult.success none content tokens]) msgs 1).sleeps
      = (List.range k).map (fun i => min (2 ^ (i + 1)) maxDelay) := by
  have h := chatLoop_replicate_sleeps callFn jsonDecode maxDelay m
    [ApiResult.success none content tokens] k 0 msgs
  have h1 : (2 : Nat) ^ 0 = 1 := rfl
  rw [h1] at h
  have h2 : (chatLoop callFn jsonDecode maxDelay
      [ApiResult.success none content tokens] msgs (2 ^ (0 + k))).sleeps = [] := rfl
  rw [h2, List.append_nil] at h
  rw [h]
  have hE : (fun i => min (2 ^ (0 + i + 1)) maxDelay)
      = (fun i => min (2 ^ (i + 1)) maxDelay) := by
    funext i
    rw [Nat.zero_add]
  rw [hE]

/-- C8: an invalid-request error propagates immediately with no sleep,
no capability call and no further endpoint request; any other unexpected
error likewise propagates immediately; a transient OpenAIError never
ends the loop: the identical message list is resubmitted after a backoff
sleep of min(2 * delay, max_delay), and for every number k of
consecutive transient failures the loop still reaches a later content
response, so there is no retry ceiling. -/
theorem C8_thm {A : Type} (callFn : String → A → String) (jsonDecode : String → A)
    (maxDelay : Nat) (msgs : List Msg) (delay : Nat) (m : String)
    (rest : List ApiResult) :
    (chatLoop callFn jsonDecode maxDelay (ApiResult.invalidRequest m :: rest) msgs delay
        = ⟨[], [], msgs, LoopOutcome.invalidRequest m⟩) ∧
    (chatLoop callFn jsonDecode maxDelay (ApiResult.otherError m :: rest) msgs delay
        = ⟨[], [], msgs, LoopOutcome.otherError m⟩) ∧
    (chatLoop callFn jsonDecode maxDelay (ApiResult.apiError m :: rest) msgs delay
        = ⟨min (2 * delay) maxDelay
              :: (chatLoop callFn jsonDecode maxDelay rest msgs (delay * 2)).sleeps,
            (chatLoop callFn jsonDecode maxDelay rest msgs (delay * 2)).calls,
            (chatLoop callFn jsonDecode maxDelay rest msgs (delay * 2)).messages,
            (chatLoop callFn jsonDecode maxDelay rest msgs (delay * 2)).outcome⟩) ∧
    (∀ (k : Nat) (content : String) (tokens : Nat),
      (chatLoop callFn jsonDecode maxDelay
          (List.replicate k (ApiResult.apiError m)
            ++ [ApiResult.success none content tokens]) msgs delay).outcome
        = LoopOutcome.ok ⟨pyStripS content, tokens⟩) :=
  ⟨rfl, rfl, rfl, fun k content tokens =>
    chatLoop_transient_ok callFn jsonDecode maxDelay m content tokens k msgs delay⟩

/-- C9: when the endpoint returns one tool-call response and then a
plain content response, exactly one capability is invoked, with the
decoded tool-call arguments; exactly the assistant tool-call message and
the function-role result message are appended; and the loop returns the
stripped final content with the completion tokens of the final response
only, the tool-call round-trip contributing none. -/
theorem C9_thm {A : Type} (callFn : String → A → String) (jsonDecode : String → A)
    (maxDelay : Nat) (msgs : List Msg) (delay : Nat)
    (fn fargs c0 content : String) (t0 tokens : Nat) :
    chatLoop callFn jsonDecode maxDelay
        [ApiResult.success (some (fn, fargs)) c0 t0,
         ApiResult.success none content tokens] msgs delay
      = ⟨[], [(fn, jsonDecode fargs, callFn fn (jsonDecode fargs))],
          msgs ++ [Msg.assistantToolCall fn fargs,
                   Msg.functionResult fn (callFn fn (jsonDecode fargs))],
          LoopOutcome.ok ⟨pyStripS content, tokens⟩⟩ := rfl

/-- Looking up a task index among the completion events returns that
task's own result whenever the index completed at all. -/
lemma lookup_completionResults {α : Type} (tasks : List α) :
    ∀ (order : List Nat) (i : Nat) (a : α),
      tasks[i]? = some a → i ∈ order →
      (completionResults tasks order).lookup i = some a := by
  intro order
  induction order with
  | nil => intro i a _ hmem; simp at hmem
  | cons j rest ih =>
    intro i a ha hmem
    by_cases hij : i = j
    · subst hij
      simp [completionResults, List.filterMap_cons, ha, List.lookup]
    · have hmem' : i ∈ rest := by
        rcases List.mem_cons.mp hmem with h | h
        · exact absurd h hij
        · exact h
      have htail := ih i a ha hmem'
      rcases hj : tasks[j]? with _ | b
      · simpa [completionResults, List.filterMap_cons, hj] using htail
      · have hne : (i == j) = false := beq_false_of_ne hij
        simpa [completionResults, List.filterMap_cons, hj, List.lookup, hne] using htail

/-- C5: for a list input of n elements, whenever the completion order is
any permutation of the n indices, arun returns a list of exactly n slots
whose i-th slot carries the result of processing the i-th input element
(its ChatResponse or its recorded exception), independent of the
completion order; no position is dropped and no element disturbs its
siblings. -/
theorem C5_thm {E : Type} (loop : String → Except E ChatResponse)
    (input : List RunInput) (order : List Nat)
    (hperm : List.Perm order (List.range input.length)) :
    (arun loop input order).length = input.length ∧
    (∀ (i : Nat) (it : RunInput), input[i]? = some it →
      (arun loop input order)[i]? = some (some (loop (itemText it)))) := by
  constructor
  · simp [arun, gatherModel, arunTasks]
  · intro i it hit
    have hi : i < input.length := by
      by_contra hge
      rw [List.getElem?_eq_none (by omega)] at hit
      exact Option.noConfusion hit
    have htask : (arunTasks loop input)[i]? = some (loop (itemText it)) := by
      simp [arunTasks, List.getElem?_map, hit]
    have hlen : (arunTasks loop input).length = input.length := by
      simp [arunTasks]
    have hmem : i ∈ order := hperm.mem_iff.mpr (List.mem_range.mpr hi)
    have hrange : (List.range (arunTasks loop input).length)[i]? = some i := by
      rw [hlen]
      exact List.getElem?_range hi
    have hslot := lookup_completionResults (arunTasks loop input) order i
      (loop (itemText it)) htask hmem
    simp only [arun, gatherModel, List.getElem?_map, hrange, Option.map_some']
    rw [hslot]

/-- C5 witnessed on a two-element batch completed in reverse order: the
first slot still carries the result of the first element. -/
theorem C5_witness :
    (arun (fun s => (Except.ok ⟨s, 0⟩ : Except String ChatResponse))
        [RunInput.text "a", RunInput.prior ⟨"b", 7⟩] [1, 0])[0]?
      = some (some (Except.ok ⟨"a", 0⟩)) :=
  (C5_thm (fun s => (Except.ok ⟨s, 0⟩ : Except String ChatResponse))
      [RunInput.text "a", RunInput.prior ⟨"b", 7⟩] [1, 0] (by decide)).2
    0 (RunInput.text "a") (by decide)

/-- Closed form of the accumulation loop. -/
lemma combineLoop_eq {E : Type} :
    ∀ (results : List (Except E ChatResponse)) (texts : List String) (tc : Nat),
      combineLoop results texts tc
        = (texts ++ (results.filterMap Except.toOption).map ChatResponse.text,
           tc + ((results.filterMap Except.toOption).map ChatResponse.token_count).sum) := by
  intro results
  induction results with
  | nil => intro texts tc; simp [combineLoop]
  | cons r rest ih =>
    intro texts tc
    cases r with
    | error e => simp [combineLoop, ih, Except.toOption, List.filterMap_cons]
    | ok c =>
      rw [show combineLoop (Except.ok c :: rest) texts tc
          = combineLoop rest (texts ++ [c.text]) (tc + c.token_count) from rfl, ih]
      simp [Except.toOption, List.filterMap_cons, List.append_assoc]
      omega

/-- C7: the aggregator is a total function that skips every failed
element and returns one ChatResponse whose text is the newline-join, in
input order, of the successful texts and whose token count is the sum of
the successful token counts; when every element failed it returns the
empty text and zero tokens. -/
theorem C7_thm {E : Type} (results : List (Except E ChatResponse)) :
    await_and_combine_multiple_results results
      = ⟨String.intercalate "\n"
            ((results.filterMap Except.toOption).map ChatResponse.text),
          ((results.filterMap Except.toOption).map ChatResponse.token_count).sum⟩ ∧
    ((∀ r ∈ results, ∃ e, r = Except.error e) →
      await_and_combine_multiple_results results = ⟨"", 0⟩) := by
  have hmain : await_and_combine_multiple_results results
      = ⟨String.intercalate "\n"
            ((results.filterMap Except.toOption).map ChatResponse.text),
          ((results.filterMap Except.toOption).map ChatResponse.token_count).sum⟩ := by
    simp [await_and_combine_multiple_results, combineLoop_eq]
  refine ⟨hmain, fun hall => ?_⟩
  have hnil : results.filterMap Except.toOption = [] := by
    rw [List.filterMap_eq_nil_iff]
    intro r hr
    rcases hall r hr with ⟨e, he⟩
    simp [he, Except.toOption]
  rw [hmain, hnil]
  rfl

/-- C7 witnessed on an all-failed input: the aggregator still returns a
ChatResponse, with empty text and zero tokens. -/
theorem C7_witness :
    await_and_combine_multiple_results
        [(Except.error "boom" : Except String ChatResponse)] = ⟨"", 0⟩ :=
  (C7_thm [(Except.error "boom" : Except String ChatResponse)]).2
    (fun r hr => ⟨"boom", by simpa using hr⟩)

/-- Splitting a separator-free string yields one piece. -/
lemma pySplitChAux_no_sep (sep : Char) :
    ∀ (s acc : List Char) (m : Nat), sep ∉ s →
      pySplitChAux sep m s acc = [acc.reverse ++ s] := by
  intro s
  induction s with
  | nil =>
    intro acc m _
    cases m with
    | zero => simp [pySplitChAux]
    | succ m => simp [pySplitChAux]
  | cons c cl ih =>
    intro acc m hmem
    have hc : c ≠ sep := fun h => hmem (h ▸ List.mem_cons_self c cl)
    have hcl : sep ∉ cl := fun h => hmem (List.mem_cons_of_mem c h)
    cases m with
    | zero => simp [pySplitChAux]
    | succ m =>
      rw [show pySplitChAux sep (m + 1) (c :: cl) acc
          = pySplitChAux sep (m + 1) cl (c :: acc) from by simp [pySplitChAux, hc]]
      rw [ih (c :: acc) (m + 1) hcl]
      simp

/-- Splitting consumes a separator-free head up to the first separator. -/
lemma pySplitChAux_sep (sep : Char) :
    ∀ (a acc : List Char) (m : Nat) (b : List Char), sep ∉ a →
      pySplitChAux sep (m + 1) (a ++ sep :: b) acc
        = (acc.reverse ++ a) :: pySplitChAux sep m b [] := by
  intro a
  induction a with
  | nil =>
    intro acc m b _
    simp [pySplitChAux]
  | cons c cl ih =>
    intro acc m b hmem
    have hc : c ≠ sep := fun h => hmem (h ▸ List.mem_cons_self c cl)
    have hcl : sep ∉ cl := fun h => hmem (List.mem_cons_of_mem c h)
    rw [show (c :: cl) ++ sep :: b = c :: (cl ++ sep :: b) from rfl]
    rw [show pySplitChAux sep (m + 1) (c :: (cl ++ sep :: b)) acc
        = pySplitChAux sep (m + 1) (cl ++ sep :: b) (c :: acc) from by
      simp [pySplitChAux, hc]]
    rw [ih (c :: acc) m b hcl]
    simp

/-- Splitting a dash-joined qualified name with maxsplit 2 recovers
exactly the owner and the bare name when neither contains a dash. -/
lemma qualified_split (owner bare : String)
    (h1 : '-' ∉ owner.data) (h2 : '-' ∉ bare.data) :
    pySplitMax '-' 2 (owner ++ "-" ++ bare).data = [owner.data, bare.data] := by
  have hdata : (owner ++ "-" ++ bare).data = owner.data ++ '-' :: bare.data := by
    rw [String.data_append, String.data_append,
      show ("-" : String).data = ['-'] from rfl, List.append_assoc]
    rfl
  rw [pySplitMax, hdata, pySplitChAux_sep '-' owner.data [] 1 bare.data h1]
  rw [pySplitChAux_no_sep '-' bare.data [] 1 h2]
  simp

/-- Membership in the collected schema list from a schema-bearing method
of a chest owner. -/
lemma functions_mem {E : Type} (chest : List (String × ToolOwner E))
    (owner : String) (o : ToolOwner E) (nm : String) (m : ToolMethod E)
    (sch : ToolSchema) (hmem : (owner, o) ∈ chest) (hm : (nm, m) ∈ o.methods)
    (hs : m.schema = some sch) :
    ({ name := owner ++ "-" ++ sch.name,
       description := sch.description } : ToolSchema) ∈ functions chest := by
  rw [functions, List.mem_flatMap]
  refine ⟨(owner, o), hmem, ?_⟩
  rw [List.mem_flatMap]
  exact ⟨(nm, m), hm, by simp [hs]⟩

/-- C6: for an owner identifier and a bare capability name free of the
dash separator, publishing then invoking round-trips: the schema
collector exposes the capability under the dash-joined qualified name,
and invoking that qualified name parses it back into the same owner and
bare name, looks up the owner's callable of that bare name, calls it on
the argument map, and propagates the callable's own failure unmodified. -/
theorem C6_thm {E : Type} (chest : List (String × ToolOwner E)) (owner bare : String)
    (o : ToolOwner E) (m : ToolMethod E) (sch : ToolSchema) (args : ToolArgs)
    (h1 : '-' ∉ owner.data) (h2 : '-' ∉ bare.data)
    (hmem : (owner, o) ∈ chest) (hm : (bare, m) ∈ o.methods)
    (hs : m.schema = some sch) (hname : sch.name = bare)
    (hlook : chest.lookup owner = some o)
    (hmlook : o.methods.lookup bare = some m) :
    ({ name := owner ++ "-" ++ bare,
       description := sch.description } : ToolSchema) ∈ functions chest ∧
    pySplitMax '-' 2 (owner ++ "-" ++ bare).data = [owner.data, bare.data] ∧
    call_function chest (owner ++ "-" ++ bare) args
      = (m.fn args).mapError CallFailure.raised ∧
    (∀ e, m.fn args = Except.error e →
      call_function chest (owner ++ "-" ++ bare) args
        = Except.error (CallFailure.raised e)) := by
  have hsplit := qualified_split owner bare h1 h2
  have hcall : call_function chest (owner ++ "-" ++ bare) args
      = (m.fn args).mapError CallFailure.raised := by
    rw [call_function, hsplit]
    simp only [hlook, hmlook]
  refine ⟨?_, hsplit, hcall, ?_⟩
  · have := functions_mem chest owner o bare m sch hmem hm hs
    rwa [hname] at this
  · intro e he
    rw [hcall, he]
    rfl

/-- C6 witnessed on a concrete chest: invoking the dash-joined qualified
name reaches the owner's callable. -/
theorem C6_witness :
    call_function egChest ("self" ++ "-" ++ "foo") []
      = (egMethod.fn []).mapError CallFailure.raised :=
  (C6_thm egChest "self" "foo" egOwner egMethod ⟨"foo", "a capability"⟩ []
    (by decide) (by decide) (by simp [egChest]) (by simp [egOwner])
    rfl rfl rfl rfl).2.2.1

/-- Assignment makes the key map to the new value. -/
lemma dictSet_lookup_self {α : Type} (k : String) (v : α) :
    ∀ (d : List (String × α)), (dictSet k v d).lookup k = some v := by
  intro d
  induction d with
  | nil => simp [dictSet, List.lookup]
  | cons e rest ih =>
    rcases e with ⟨k2, v2⟩
    by_cases h : k2 = k
    · simp [dictSet, h, List.lookup]
    · have hne : (k == k2) = false := beq_false_of_ne (Ne.symm h)
      simp [dictSet, h, List.lookup, hne, ih]

/-- Assignment leaves every other key unchanged. -/
lemma dictSet_lookup_other {α : Type} (k : String) (v : α) (k2 : String)
    (hk : k2 ≠ k) :
    ∀ (d : List (String × α)), (dictSet k v d).lookup k2 = d.lookup k2 := by
  intro d
  induction d with
  | nil =>
    have hne : (k2 == k) = false := beq_false_of_ne hk
    simp [dictSet, List.lookup, hne]
  | cons e rest ih =>
    rcases e with ⟨k3, v3⟩
    by_cases h : k3 = k
    · subst h
      have hne : (k2 == k3) = false := beq_false_of_ne hk
      simp [dictSet, List.lookup, hne]
    · by_cases h2 : k2 = k3
      · subst h2
        simp [dictSet, h, List.lookup]
      · have hne : (k2 == k3) = false := beq_false_of_ne h2
        simp [dictSet, h, List.lookup, hne, ih]

/-- The assigned binding is a member of the updated dictionary. -/
lemma dictSet_mem {α : Type} (k : String) (v : α) :
    ∀ (d : List (String × α)), (k, v) ∈ dictSet k v d := by
  intro d
  induction d with
  | nil => simp [dictSet]
  | cons e rest ih =>
    rcases e with ⟨k2, v2⟩
    by_cases h : k2 = k
    · simp [dictSet, h]
    · simp only [dictSet, h, if_neg, not_false_iff]
      exact List.mem_cons_of_mem _ ih

/-- C10: after construction the tool chest maps the key self to the
engine instance itself, overwriting any caller-supplied entry under that
key while leaving every other key unchanged, and consequently every
schema-bearing method of the engine is exposed by the schema collector
under the owner name self. -/
theorem C10_thm {E : Type} (tools : List (String × ToolOwner E))
    (engine : ToolOwner E) :
    (initToolChest tools engine).lookup "self" = some engine ∧
    (∀ k, k ≠ "self" → (initToolChest tools engine).lookup k = tools.lookup k) ∧
    (∀ (nm : String) (m : ToolMethod E) (sch : ToolSchema),
      (nm, m) ∈ engine.methods → m.schema = some sch →
      ({ name := "self" ++ "-" ++ sch.name,
         description := sch.description } : ToolSchema)
        ∈ functions (initToolChest tools engine)) := by
  refine ⟨dictSet_lookup_self "self" engine tools, ?_, ?_⟩
  · intro k hk
    exact dictSet_lookup_other "self" engine k hk tools
  · intro nm m sch hmem hsch
    exact functions_mem (initToolChest tools engine) "self" engine nm m sch
      (dictSet_mem "self" engine tools) hmem hsch

/-- C10 witnessed on a concrete chest: the caller entry under self is
overwritten by the engine, the other key is untouched, and the engine
schema appears under the owner name self. -/
theorem C10_witness :
    (initToolChest egCallerTools egEngine).lookup "self" = some egEngine ∧
    (initToolChest egCallerTools egEngine).lookup "db" = egCallerTools.lookup "db" ∧
    ({ name := "self" ++ "-" ++ "chat",
       description := "run a chat" } : ToolSchema)
      ∈ functions (initToolChest egCallerTools egEngine) :=
  ⟨(C10_thm egCallerTools egEngine).1,
   (C10_thm egCallerTools egEngine).2.1 "db" (by decide),
   (C10_thm egCallerTools egEngine).2.2 "chat"
     ⟨fun _ => Except.ok "ok", some ⟨"chat", "run a chat"⟩⟩ ⟨"chat", "run a chat"⟩
     (by simp [egEngine]) rfl⟩

end OneShot

